import Mathlib

/-!
Verification of the directional reconciliation and periodic-refresh engine of
the best-route trader service.

The Python sources (`config.py`, `bitquery_client.py`, `calculation.py`,
`data_service.py`, `app.py`) are shallowly embedded below:

* Python `str` values are modeled as `List Nat` of Unicode codepoints
  (`PyStr`); `str.lower`/`str.upper`/`str.strip` are modeled for the ASCII
  range, on which they agree with Python's behavior.
* Python `float` fields never undergo arithmetic in the embedded code (they
  are only compared with `0` and copied), so they are modeled as `Rat`.
* Provider rows are modeled after JSON decoding, with `Option`-typed fields
  for values that may be absent or `null`.
* The GraphQL transport is abstracted as a function from the query variables
  to the returned rows; fetch functions additionally return the list of
  queries they issued, so "which orientation was queried" is part of the
  model.
-/

/-! ## Python string primitives (`List Nat` of codepoints, ASCII semantics) -/

/-- Python `str` as a list of Unicode codepoints. -/
abbrev PyStr := List Nat

/-- Codepoints of a Lean string literal, used to write concrete Python strings. -/
def strToCodes (s : String) : PyStr := s.toList.map Char.toNat

/-- `str.lower` on one codepoint (ASCII range). -/
def pyLowerChar (c : Nat) : Nat := if 65 ≤ c ∧ c ≤ 90 then c + 32 else c

/-- `str.upper` on one codepoint (ASCII range). -/
def pyUpperChar (c : Nat) : Nat := if 97 ≤ c ∧ c ≤ 122 then c - 32 else c

/-- Python `str.lower`. -/
def pyLower (s : PyStr) : PyStr := s.map pyLowerChar

/-- Python `str.upper`. -/
def pyUpper (s : PyStr) : PyStr := s.map pyUpperChar

/-- Whitespace stripped by Python `str.strip()` (ASCII part). -/
def isPySpace (c : Nat) : Bool :=
  decide (c = 32 ∨ c = 9 ∨ c = 10 ∨ c = 13 ∨ c = 11 ∨ c = 12)

/-- Python `str.strip()`: drop leading and trailing whitespace. -/
def pyStrip (s : PyStr) : PyStr :=
  ((s.dropWhile isPySpace).reverse.dropWhile isPySpace).reverse

/-- One character of `'0123456789abcdefABCDEF'` (the check in `config.py`). -/
def isHexChar (c : Nat) : Bool :=
  decide ((48 ≤ c ∧ c ≤ 57) ∨ (97 ≤ c ∧ c ≤ 102) ∨ (65 ≤ c ∧ c ≤ 70))

/-! ## `config.py` -/

/-- The `TOKEN_ADDRESSES` dict of `config.py`, as its `.get` function
(keys are distinct, so nested comparison is faithful to the dict). -/
def TOKEN_ADDRESSES_get (k : PyStr) : Option PyStr :=
  if k = strToCodes "USDC" then some (strToCodes "0xa0b86991c6218b36c1d19d4a2e9eb0ce3606eb48")
  else if k = strToCodes "USDT" then some (strToCodes "0xdac17f958d2ee523a2206206994597c13d831ec7")
  else if k = strToCodes "DAI" then some (strToCodes "0x6b175474e89094c44da98b954eedeac495271d0f")
  else if k = strToCodes "WETH" then some (strToCodes "0xc02aaa39b223fe8d0a0e5c4f27ead9083c756cc2")
  else if k = strToCodes "ETH" then some (strToCodes "0xc02aaa39b223fe8d0a0e5c4f27ead9083c756cc2")
  else if k = strToCodes "WBTC" then some (strToCodes "0x2260fac5e5542a773aa44fbcfedf7c193bc2c599")
  else none

/-- `config.token_to_address`: resolve a symbol or raw address to a normalized
address, or `none`.  The argument is `Option PyStr` (Python `Optional[str]`);
`if not symbol_or_address` treats both `None` and `''` as falsy. -/
def token_to_address : Option PyStr → Option PyStr
  | none => none
  | some s0 =>
    if s0 = [] then none
    else
      let s := pyStrip s0
      if s.take 2 = strToCodes "0x" ∧ s.length = 42 then some (pyLower s)
      else if s.length = 40 ∧ s.all isHexChar = true then
        some (strToCodes "0x" ++ pyLower s)
      else TOKEN_ADDRESSES_get (pyUpper s)

/-! ## Data classes of `bitquery_client.py` -/

/-- `bitquery_client.TokenInfo`. -/
structure TokenInfo where
  symbol : PyStr
  name : PyStr
  address : PyStr
  decimals : Int := 18
deriving DecidableEq

/-- `bitquery_client.PoolSlippageData`.  Block time is an abstract timestamp. -/
structure PoolSlippageData where
  block_number : Int
  block_time : Int
  protocol : PyStr
  protocol_version : PyStr
  pool_address : PyStr
  token_a : TokenInfo
  token_b : TokenInfo
  slippage_bps : Int
  price_atob : Rat
  price_btoa : Rat
  max_amount_in_atob : Rat
  min_amount_out_atob : Rat
  max_amount_in_btoa : Rat
  min_amount_out_btoa : Rat
deriving DecidableEq

/-- `bitquery_client.MempoolTradeData`. -/
structure MempoolTradeData where
  tx_hash : PyStr
  block_number : Int
  block_time : Int
  from_address : PyStr
  to_address : PyStr
  protocol : PyStr
  protocol_family : PyStr
  trade_token : TokenInfo
  side_token : TokenInfo
  trade_amount : Rat
  trade_amount_usd : Rat
  side_amount : Rat
  side_amount_usd : Rat
  price : Rat
  price_usd : Rat
  gas_fee : Rat
  gas_fee_usd : Rat
  priority_fee : Rat
  priority_fee_usd : Rat
  success : Bool
  buyer : PyStr
  seller : PyStr
  sender : PyStr
deriving DecidableEq

/-- A raw `DEXPoolSlippages` row as read by `_transform_slippage_data`,
after JSON decoding: each field the code extracts, `Option`-typed for
absent/`null` values (`none` also stands for a falsy empty time string). -/
structure RawSlip where
  block_number : Option Int
  block_time : Option Int
  protocol_name : Option PyStr
  protocol_version : Option PyStr
  pool_contract : Option PyStr
  currency_a_symbol : Option PyStr
  currency_a_name : Option PyStr
  currency_a_contract : Option PyStr
  currency_a_decimals : Option Int
  currency_b_symbol : Option PyStr
  currency_b_name : Option PyStr
  currency_b_contract : Option PyStr
  currency_b_decimals : Option Int
  slippage_bps : Option Int
  atob_price : Option Rat
  atob_max_amount_in : Option Rat
  atob_min_amount_out : Option Rat
  btoa_price : Option Rat
  btoa_max_amount_in : Option Rat
  btoa_min_amount_out : Option Rat
deriving DecidableEq

/-- A raw mempool `DEXTradeByTokens` row as read by
`_transform_mempool_trades`, after JSON decoding. -/
structure RawTrade where
  tx_hash : Option PyStr
  tx_from : Option PyStr
  tx_to : Option PyStr
  block_number : Option Int
  block_time : Option Int
  protocol_name : Option PyStr
  protocol_family : Option PyStr
  currency_symbol : Option PyStr
  currency_name : Option PyStr
  currency_contract : Option PyStr
  side_currency_symbol : Option PyStr
  side_currency_name : Option PyStr
  side_currency_contract : Option PyStr
  trade_amount : Option Rat
  trade_amount_usd : Option Rat
  side_amount : Option Rat
  side_amount_usd : Option Rat
  trade_price : Option Rat
  trade_price_usd : Option Rat
  sender_fee : Option Rat
  sender_fee_usd : Option Rat
  priority_fee_per_gas : Option Rat
  priority_fee_per_gas_usd : Option Rat
  trade_success : Option Bool
  buyer : Option PyStr
  seller : Option PyStr
  sender : Option PyStr
deriving DecidableEq

/-! ## `BitqueryClient` transforms -/

/-- `safe_str` of `_transform_mempool_trades` with default `''`. -/
def safe_str (v : Option PyStr) : PyStr := v.getD []

/-- `safe_str` with an explicit default. -/
def safe_str_d (v : Option PyStr) (d : PyStr) : PyStr := v.getD d

/-- `safe_float`: `None` (and unconvertible values, outside this model)
falls back to `0.0`. -/
def safe_float (v : Option Rat) : Rat := v.getD 0

/-- One iteration of `_transform_slippage_data`: build a `PoolSlippageData`
from a raw row.  With typed raw fields the extraction is total, matching the
code on every row that does not raise. -/
def transform_slippage_row (now : Int) (r : RawSlip) : PoolSlippageData :=
  { block_number := r.block_number.getD 0
    block_time := r.block_time.getD now
    protocol := r.protocol_name.getD (strToCodes "Unknown")
    protocol_version := r.protocol_version.getD []
    pool_address := r.pool_contract.getD []
    token_a :=
      { symbol := r.currency_a_symbol.getD []
        name := r.currency_a_name.getD []
        address := r.currency_a_contract.getD []
        decimals := r.currency_a_decimals.getD 18 }
    token_b :=
      { symbol := r.currency_b_symbol.getD []
        name := r.currency_b_name.getD []
        address := r.currency_b_contract.getD []
        decimals := r.currency_b_decimals.getD 18 }
    slippage_bps := r.slippage_bps.getD 0
    price_atob := r.atob_price.getD 0
    price_btoa := r.btoa_price.getD 0
    max_amount_in_atob := r.atob_max_amount_in.getD 0
    min_amount_out_atob := r.atob_min_amount_out.getD 0
    max_amount_in_btoa := r.btoa_max_amount_in.getD 0
    min_amount_out_btoa := r.btoa_min_amount_out.getD 0 }

/-- `_transform_slippage_data`. -/
def transform_slippage_data (now : Int) (rows : List RawSlip) : List PoolSlippageData :=
  rows.map (transform_slippage_row now)

/-- One iteration of `_transform_mempool_trades`. -/
def transform_mempool_row (now : Int) (r : RawTrade) : MempoolTradeData :=
  { tx_hash := safe_str r.tx_hash
    block_number := r.block_number.getD 0
    block_time := r.block_time.getD now
    from_address := safe_str r.tx_from
    to_address := safe_str r.tx_to
    protocol := safe_str_d r.protocol_name (strToCodes "Unknown")
    protocol_family := safe_str_d r.protocol_family (strToCodes "Unknown")
    trade_token :=
      { symbol := safe_str r.currency_symbol
        name := safe_str r.currency_name
        address := safe_str r.currency_contract }
    side_token :=
      { symbol := safe_str r.side_currency_symbol
        name := safe_str r.side_currency_name
        address := safe_str r.side_currency_contract }
    trade_amount := safe_float r.trade_amount
    trade_amount_usd := safe_float r.trade_amount_usd
    side_amount := safe_float r.side_amount
    side_amount_usd := safe_float r.side_amount_usd
    price := safe_float r.trade_price
    price_usd := safe_float r.trade_price_usd
    gas_fee := safe_float r.sender_fee
    gas_fee_usd := safe_float r.sender_fee_usd
    priority_fee := safe_float r.priority_fee_per_gas
    priority_fee_usd := safe_float r.priority_fee_per_gas_usd
    success := (r.trade_success.getD true) || true
    buyer := safe_str r.buyer
    seller := safe_str r.seller
    sender := safe_str r.sender }

/-- `_transform_mempool_trades`. -/
def transform_mempool_trades (now : Int) (rows : List RawTrade) : List MempoolTradeData :=
  rows.map (transform_mempool_row now)

/-! ## `BitqueryClient` fetch functions

The GraphQL transport is a function `q` from the query variables
`(tokenA, tokenB, limit)` to the decoded rows; each fetch also returns the
list of `(tokenA, tokenB, limit)` triples it sent, in order, so the call
pattern is part of the observable behavior. -/

/-- Python truthiness of an `Optional[str]`: `None` and `''` are falsy. -/
def truthyOptStr : Option PyStr → Bool
  | none => false
  | some s => !s.isEmpty

/-- `_normalize_token_address`: strip, lowercase, ensure a `0x` prefixed form. -/
def normalize_token_address (s : PyStr) : PyStr :=
  let t := pyLower (pyStrip s)
  if t.take 2 = strToCodes "0x" then t else strToCodes "0x" ++ t

/-- The dedup key used by `fetch_mempool_trades`:
`(item.get('Transaction') or {}).get('Hash')`, with a missing or empty hash
treated as "no key" (both are falsy in `if tx_hash`). -/
def hashKey (r : RawTrade) : Option PyStr :=
  match r.tx_hash with
  | none => none
  | some s => if s = [] then none else some s

/-- The merge loop of `fetch_mempool_trades` (lines 410-418): walk the
concatenated batches keeping a set of seen hashes; a row with an already
seen hash is skipped, a row with a fresh hash records it, a row without a
hash is always kept. -/
def dedupByHash (seen : List PyStr) : List RawTrade → List RawTrade
  | [] => []
  | r :: rest =>
    match hashKey r with
    | some h =>
      if h ∈ seen then dedupByHash seen rest
      else r :: dedupByHash (h :: seen) rest
    | none => r :: dedupByHash seen rest

/-- `BitqueryClient.fetch_mempool_trades`.  Returns the parsed trades and the
log of provider queries issued. -/
def fetch_mempool_trades (q : PyStr → PyStr → Nat → List RawTrade) (now : Int)
    (limit : Nat) (token_a_address token_b_address : Option PyStr) :
    List MempoolTradeData × List (PyStr × PyStr × Nat) :=
  if !truthyOptStr token_a_address || !truthyOptStr token_b_address then ([], [])
  else
    let ta := normalize_token_address (token_a_address.getD [])
    let tb := normalize_token_address (token_b_address.getD [])
    let per_limit := max (limit / 2) 5
    let trades_ab := q ta tb per_limit
    let trades_ba := q tb ta per_limit
    let merged := dedupByHash [] (trades_ab ++ trades_ba)
    (transform_mempool_trades now (merged.take limit),
      [(ta, tb, per_limit), (tb, ta, per_limit)])

/-- `BitqueryClient.fetch_dex_pool_slippages`.  Returns the parsed rows and
the log of provider queries issued: the `(A,B)` orientation first, and the
swapped `(B,A)` orientation only when the first returned zero rows. -/
def fetch_dex_pool_slippages (q : PyStr → PyStr → Nat → List RawSlip) (now : Int)
    (limit : Nat) (token_a_address token_b_address : Option PyStr) :
    List PoolSlippageData × List (PyStr × PyStr × Nat) :=
  if !truthyOptStr token_a_address || !truthyOptStr token_b_address then ([], [])
  else
    let ta := normalize_token_address (token_a_address.getD [])
    let tb := normalize_token_address (token_b_address.getD [])
    let slippages_ab := q ta tb limit
    if slippages_ab ≠ [] then
      (transform_slippage_data now (slippages_ab.take limit), [(ta, tb, limit)])
    else
      let slippages_ba := q tb ta limit
      (transform_slippage_data now (slippages_ba.take limit),
        [(ta, tb, limit), (tb, ta, limit)])

/-! ## `calculation.py` -/

/-- `calculation._is_pool_reversed`: true when the pool token symbols equal
the requested pair in swapped order.  Note that the comparison is between the
pool-side token *symbols* and the raw request strings. -/
def is_pool_reversed (token_a_symbol token_b_symbol : PyStr)
    (request_token_a request_token_b : Option PyStr) : Bool :=
  if !truthyOptStr request_token_a || !truthyOptStr request_token_b then false
  else
    decide (some token_a_symbol = request_token_b) &&
      decide (some token_b_symbol = request_token_a)

/-- One output item of `transform_slippage_for_api` (a Python dict;
`token_a`/`token_b` are present only when `include_tokens` is set). -/
structure ApiItem where
  bps : Int
  max_amount : Rat
  price : Rat
  price_btoa : Rat
  protocol : PyStr
  token_a : Option PyStr
  token_b : Option PyStr
deriving DecidableEq

/-- The item built for one kept point in the loop of
`transform_slippage_for_api` (lines 52-70). -/
def mkApiItem (token_a token_b : Option PyStr) (include_tokens : Bool)
    (s : PoolSlippageData) : ApiItem :=
  let pool_reversed := is_pool_reversed s.token_a.symbol s.token_b.symbol token_a token_b
  let price_b_per_a :=
    if pool_reversed then
      if s.price_btoa ≠ 0 ∧ s.price_btoa > 0 then s.price_btoa else 0
    else
      if s.price_atob ≠ 0 ∧ s.price_atob > 0 then s.price_atob else 0
  let max_amount := if pool_reversed then s.max_amount_in_btoa else s.max_amount_in_atob
  { bps := s.slippage_bps
    max_amount := max_amount
    price := price_b_per_a
    price_btoa := s.price_btoa
    protocol := s.protocol ++ strToCodes " v" ++ s.protocol_version
    token_a := if include_tokens then some s.token_a.symbol else none
    token_b := if include_tokens then some s.token_b.symbol else none }

/-- The ordering the `sorted(..., key=lambda x: x.slippage_bps)` call uses. -/
def bpsLE (a b : PoolSlippageData) : Prop := a.slippage_bps ≤ b.slippage_bps

instance : DecidableRel bpsLE := fun a b =>
  inferInstanceAs (Decidable (a.slippage_bps ≤ b.slippage_bps))

instance : IsTotal PoolSlippageData bpsLE :=
  ⟨fun a b => Int.le_total a.slippage_bps b.slippage_bps⟩

instance : IsTrans PoolSlippageData bpsLE :=
  ⟨fun _ _ _ hab hbc => Int.le_trans hab hbc⟩

/-- Python `sorted(slippage_data, key=lambda x: x.slippage_bps)`: a stable
ascending sort by tier.  Any two stable sorts under the same key agree, so
insertion sort is extensionally the same function as Python's sort. -/
def sortedByBps (l : List PoolSlippageData) : List PoolSlippageData :=
  List.insertionSort bpsLE l

/-- The dedup-and-emit loop of `transform_slippage_for_api` (lines 48-71):
walk the sorted list, skip points whose tier is in `seen_bps`, emit an item
and record the tier otherwise. -/
def dedupEmit (token_a token_b : Option PyStr) (include_tokens : Bool)
    (seen_bps : List Int) : List PoolSlippageData → List ApiItem
  | [] => []
  | s :: rest =>
    if s.slippage_bps ∈ seen_bps then
      dedupEmit token_a token_b include_tokens seen_bps rest
    else
      mkApiItem token_a token_b include_tokens s ::
        dedupEmit token_a token_b include_tokens (s.slippage_bps :: seen_bps) rest

/-- `calculation.transform_slippage_for_api`. -/
def transform_slippage_for_api (slippage_data : List PoolSlippageData)
    (token_a token_b : Option PyStr) (include_tokens : Bool) : List ApiItem :=
  dedupEmit token_a token_b include_tokens [] (sortedByBps slippage_data)

/-! ## `data_service.py`

The `DataService` instance state: stored data, timestamps, the running flag
of the refresh thread, and a counter of error-callback invocations (the
callbacks themselves are external; the counter records each `_on_error(e)`
call).  Fetch results are passed in as `Except`, `.error` standing for a
raised exception in the client. -/

/-- The mutable fields of `DataService`. -/
structure ServiceState where
  slippage_data : List PoolSlippageData
  mempool_data : List MempoolTradeData
  last_slippage_update : Option Int
  last_mempool_update : Option Int
  running : Bool
  error_calls : Nat
deriving DecidableEq

/-- `DataService.__init__`: empty data, no timestamps, not running. -/
def ServiceState.init : ServiceState :=
  { slippage_data := []
    mempool_data := []
    last_slippage_update := none
    last_mempool_update := none
    running := false
    error_calls := 0 }

/-- `DataService.fetch_slippage_data` with the client call's outcome given as
`res`.  Returns the new state and whether the call re-raised (`true` when the
client raised: the stored data and timestamp are untouched, the error
callback fires when set, and the exception propagates). -/
def fetch_slippage_data_step (res : Except Unit (List PoolSlippageData))
    (now : Int) (has_error_cb : Bool) (st : ServiceState) : ServiceState × Bool :=
  match res with
  | .ok d => ({ st with slippage_data := d, last_slippage_update := some now }, false)
  | .error _ =>
    ((if has_error_cb then { st with error_calls := st.error_calls + 1 } else st), true)

/-- `DataService.fetch_mempool_data`, same shape as the slippage step. -/
def fetch_mempool_data_step (res : Except Unit (List MempoolTradeData))
    (now : Int) (has_error_cb : Bool) (st : ServiceState) : ServiceState × Bool :=
  match res with
  | .ok d => ({ st with mempool_data := d, last_mempool_update := some now }, false)
  | .error _ =>
    ((if has_error_cb then { st with error_calls := st.error_calls + 1 } else st), true)

/-- `DataService.fetch_all`: slippage first, then mempool; a raise in the
slippage fetch propagates before the mempool fetch runs. -/
def fetch_all_step (slip_res : Except Unit (List PoolSlippageData))
    (mem_res : Except Unit (List MempoolTradeData)) (now : Int)
    (has_error_cb : Bool) (st : ServiceState) : ServiceState × Bool :=
  let (st1, raised) := fetch_slippage_data_step slip_res now has_error_cb st
  if raised then (st1, true)
  else fetch_mempool_data_step mem_res now has_error_cb st1

/-- One iteration of `DataService._refresh_loop`: run `fetch_all` under a
`try`, reporting an escaped exception to the error callback; the loop itself
never stops on an error. -/
def refresh_cycle (slip_res : Except Unit (List PoolSlippageData))
    (mem_res : Except Unit (List MempoolTradeData)) (now : Int)
    (has_error_cb : Bool) (st : ServiceState) : ServiceState :=
  let (st1, raised) := fetch_all_step slip_res mem_res now has_error_cb st
  if raised then
    if has_error_cb then { st1 with error_calls := st1.error_calls + 1 } else st1
  else st1

/-- `n` iterations of the `while self._running` refresh loop, each cycle
seeing the given fetch outcomes (the sleep between cycles is timing only and
is not modeled). -/
def run_cycles (slip_res : Except Unit (List PoolSlippageData))
    (mem_res : Except Unit (List MempoolTradeData)) (now : Int)
    (has_error_cb : Bool) : Nat → ServiceState → ServiceState
  | 0, st => st
  | n + 1, st =>
    if st.running then
      run_cycles slip_res mem_res now has_error_cb n
        (refresh_cycle slip_res mem_res now has_error_cb st)
    else st

/-- `DataService.start`: set the running flag (idempotent; thread creation is
external to the state model). -/
def ServiceState.start (st : ServiceState) : ServiceState :=
  if st.running then st else { st with running := true }

/-- `DataService.get_latest_block`: `None` on empty slippage data, otherwise
the maximum stored slippage block number (mempool data is not consulted). -/
def get_latest_block (st : ServiceState) : Option Int :=
  match st.slippage_data with
  | [] => none
  | s :: rest => some ((rest.map (·.block_number)).foldl max s.block_number)

/-- The `latest_block` field of the `/api/data` and `/api/slippage` JSON
responses (`app.py` lines 310 and 338): `service.get_latest_block()`. -/
def api_latest_block (st : ServiceState) : Option Int :=
  get_latest_block st

/-! ## Concrete sample data and providers used by the witnesses -/

/-- The two directional batches requested by `fetch_mempool_trades`
(`trades_ab` and `trades_ba` in the source): each orientation is queried with
the per-query cap `max(limit // 2, 5)`. -/
def mempool_batches (q : PyStr → PyStr → Nat → List RawTrade) (limit : Nat)
    (a b : PyStr) : List RawTrade × List RawTrade :=
  (q (normalize_token_address a) (normalize_token_address b) (max (limit / 2) 5),
   q (normalize_token_address b) (normalize_token_address a) (max (limit / 2) 5))

/-- A raw mempool row with every optional field absent. -/
def emptyRawTrade : RawTrade :=
  { tx_hash := none
    tx_from := none
    tx_to := none
    block_number := none
    block_time := none
    protocol_name := none
    protocol_family := none
    currency_symbol := none
    currency_name := none
    currency_contract := none
    side_currency_symbol := none
    side_currency_name := none
    side_currency_contract := none
    trade_amount := none
    trade_amount_usd := none
    side_amount := none
    side_amount_usd := none
    trade_price := none
    trade_price_usd := none
    sender_fee := none
    sender_fee_usd := none
    priority_fee_per_gas := none
    priority_fee_per_gas_usd := none
    trade_success := none
    buyer := none
    seller := none
    sender := none }

/-- A provider for the `c3` witness: hash `0xabc` appears in both directional
batches. -/
def c3wProvider : PyStr → PyStr → Nat → List RawTrade :=
  fun ta _ _ =>
    if ta = strToCodes "0xab" then
      [{ emptyRawTrade with tx_hash := some (strToCodes "0xabc"), block_time := some 5 }]
    else
      [{ emptyRawTrade with tx_hash := some (strToCodes "0xabc"), block_time := some 4 }]

/-- A provider for the `c7` scenario: the `(A,B)` batch holds one pending
trade at block time 1, the `(B,A)` batch one at block time 5. -/
def c7Provider : PyStr → PyStr → Nat → List RawTrade :=
  fun ta _ _ =>
    if ta = strToCodes "0xab" then [{ emptyRawTrade with block_time := some 1 }]
    else [{ emptyRawTrade with block_time := some 5 }]

/-- A raw slippage row with every optional field absent. -/
def emptyRawSlip : RawSlip :=
  { block_number := none
    block_time := none
    protocol_name := none
    protocol_version := none
    pool_contract := none
    currency_a_symbol := none
    currency_a_name := none
    currency_a_contract := none
    currency_a_decimals := none
    currency_b_symbol := none
    currency_b_name := none
    currency_b_contract := none
    currency_b_decimals := none
    slippage_bps := none
    atob_price := none
    atob_max_amount_in := none
    atob_min_amount_out := none
    btoa_price := none
    btoa_max_amount_in := none
    btoa_min_amount_out := none }

/-- A provider for the `c4` witness: the `(A,B)` orientation has zero rows,
the swapped orientation has one. -/
def c4Provider : PyStr → PyStr → Nat → List RawSlip :=
  fun ta _ _ =>
    if ta = strToCodes "0xab" then [] else [{ emptyRawSlip with slippage_bps := some 25 }]

/-- A sample curve point for the `c2` witness (tier 25). -/
def c2wPoint1 : PoolSlippageData :=
  { block_number := 100
    block_time := 0
    protocol := strToCodes "Uniswap"
    protocol_version := strToCodes "3"
    pool_address := strToCodes "0xpool1"
    token_a := { symbol := strToCodes "USDC", name := strToCodes "USD Coin",
                 address := strToCodes "0xaaaa" }
    token_b := { symbol := strToCodes "WETH", name := strToCodes "Wrapped Ether",
                 address := strToCodes "0xbbbb" }
    slippage_bps := 25
    price_atob := mkRat 3601 2
    price_btoa := mkRat 1 1800
    max_amount_in_atob := mkRat 50000 1
    min_amount_out_atob := mkRat 27 1
    max_amount_in_btoa := mkRat 30 1
    min_amount_out_btoa := mkRat 52000 1 }

/-- A second sample curve point with the same tier 25 (later duplicate). -/
def c2wPoint2 : PoolSlippageData :=
  { c2wPoint1 with
    block_number := 101
    price_atob := mkRat 1700 1
    pool_address := strToCodes "0xpool2" }

/-- The single curve point of the C1 scenario: returned by the `(B,A)`
fallback query, so the pool's `CurrencyA` is the requested B address and its
`CurrencyB` is the requested A address; tier 25, `BtoA.Price = 1800.5`,
`BtoA.MaxAmountIn = 50000`, `AtoB` fields zero.  The token symbols are
ordinary ticker strings, as the provider returns them. -/
def c1Row : PoolSlippageData :=
  { block_number := 200
    block_time := 0
    protocol := strToCodes "Uniswap"
    protocol_version := strToCodes "3"
    pool_address := strToCodes "0xpool"
    token_a := { symbol := strToCodes "TKB", name := strToCodes "Token B",
                 address := strToCodes "0xbbbbbbbbbbbbbbbbbbbbbbbbbbbbbbbbbbbbbbbb" }
    token_b := { symbol := strToCodes "TKA", name := strToCodes "Token A",
                 address := strToCodes "0xaaaaaaaaaaaaaaaaaaaaaaaaaaaaaaaaaaaaaaaa" }
    slippage_bps := 25
    price_atob := mkRat 0 1
    price_btoa := mkRat 3601 2
    max_amount_in_atob := mkRat 0 1
    min_amount_out_atob := mkRat 0 1
    max_amount_in_btoa := mkRat 50000 1
    min_amount_out_btoa := mkRat 0 1 }

/-- The service state for the `c10` witness: one stored slippage point at
block 7, no mempool data. -/
def c10wState : ServiceState :=
  { ServiceState.init with
    slippage_data := [transform_slippage_row 0 { emptyRawSlip with block_number := some 7 }] }

/-! ## String lemmas -/

theorem pyLowerChar_idem (c : Nat) : pyLowerChar (pyLowerChar c) = pyLowerChar c := by
  unfold pyLowerChar
  split
  · split <;> omega
  · rfl

theorem pyLower_idem (s : PyStr) : pyLower (pyLower s) = pyLower s := by
  unfold pyLower
  rw [List.map_map]
  exact List.map_congr_left fun c _ => pyLowerChar_idem c

theorem isPySpace_pyLowerChar (c : Nat) : isPySpace (pyLowerChar c) = isPySpace c := by
  unfold pyLowerChar isPySpace
  split
  · simp only [decide_eq_decide]
    omega
  · rfl

theorem dropWhile_length_le (p : α → Bool) (l : List α) :
    (List.dropWhile p l).length ≤ l.length := by
  induction l with
  | nil => simp
  | cons a t ih =>
    rw [List.dropWhile_cons]
    split
    · exact Nat.le_trans ih (Nat.le_succ _)
    · simp

theorem dropWhile_dropWhile (p : α → Bool) (l : List α) :
    List.dropWhile p (List.dropWhile p l) = List.dropWhile p l := by
  induction l with
  | nil => simp
  | cons a t ih =>
    rw [List.dropWhile_cons]
    split
    · exact ih
    · rw [List.dropWhile_cons]
      simp_all

theorem dropWhile_append_left (p : α → Bool) (x y : List α)
    (h : List.dropWhile p (x ++ y) = x ++ y) : List.dropWhile p x = x := by
  cases x with
  | nil => simp
  | cons a t =>
    rw [List.cons_append, List.dropWhile_cons] at h
    by_cases hpa : p a = true
    · rw [if_pos hpa] at h
      have hlen := dropWhile_length_le p (t ++ y)
      rw [h] at hlen
      simp at hlen
    · rw [List.dropWhile_cons, if_neg hpa]

/-- The stripped string is a prefix of the left-trimmed string: the final
reverse-trim only removes a suffix. -/
theorem pyStrip_decomp (s : PyStr) :
    ∃ u, s.dropWhile isPySpace = pyStrip s ++ u := by
  refine ⟨((s.dropWhile isPySpace).reverse.takeWhile isPySpace).reverse, ?_⟩
  unfold pyStrip
  conv_lhs => rw [← List.reverse_reverse (s.dropWhile isPySpace),
    ← List.takeWhile_append_dropWhile isPySpace (s.dropWhile isPySpace).reverse]
  rw [List.reverse_append]

theorem pyStrip_idem (s : PyStr) : pyStrip (pyStrip s) = pyStrip s := by
  obtain ⟨u, hu⟩ := pyStrip_decomp s
  have h1 : List.dropWhile isPySpace (pyStrip s) = pyStrip s := by
    have := dropWhile_dropWhile isPySpace s
    rw [hu] at this
    exact dropWhile_append_left _ _ _ this
  show ((List.dropWhile isPySpace (pyStrip s)).reverse.dropWhile isPySpace).reverse = pyStrip s
  rw [h1]
  show ((((s.dropWhile isPySpace).reverse.dropWhile isPySpace).reverse).reverse.dropWhile
    isPySpace).reverse = pyStrip s
  rw [List.reverse_reverse, dropWhile_dropWhile]
  rfl

theorem pyStrip_pyLower (s : PyStr) : pyStrip (pyLower s) = pyLower (pyStrip s) := by
  have hfun : (isPySpace ∘ pyLowerChar) = isPySpace := funext isPySpace_pyLowerChar
  have hdw : ∀ l : PyStr, List.dropWhile isPySpace (List.map pyLowerChar l) =
      List.map pyLowerChar (List.dropWhile isPySpace l) := by
    intro l
    rw [List.dropWhile_map, hfun]
  show ((List.dropWhile isPySpace (List.map pyLowerChar s)).reverse.dropWhile isPySpace).reverse
      = List.map pyLowerChar ((s.dropWhile isPySpace).reverse.dropWhile isPySpace).reverse
  rw [hdw, ← List.map_reverse, hdw, ← List.map_reverse]

theorem dropWhile_eq_self_of_all (p : α → Bool) (l : List α)
    (h : ∀ c ∈ l, p c = false) : List.dropWhile p l = l := by
  cases l with
  | nil => simp
  | cons a t =>
    rw [List.dropWhile_cons, if_neg]
    simp [h a (by simp)]

theorem pyStrip_eq_self_of_all (s : PyStr) (h : ∀ c ∈ s, isPySpace c = false) :
    pyStrip s = s := by
  unfold pyStrip
  rw [dropWhile_eq_self_of_all _ _ h,
    dropWhile_eq_self_of_all _ _ (fun c hc => h c (List.mem_reverse.mp hc)),
    List.reverse_reverse]

/-! ## Resolver lemmas -/

theorem hex_not_space {c : Nat} (h : isHexChar c = true) : isPySpace c = false := by
  unfold isHexChar at h
  unfold isPySpace
  rw [decide_eq_true_iff] at h
  rw [decide_eq_false_iff_not]
  omega

theorem hex_lower_not_space {c : Nat} (h : isHexChar c = true) :
    isPySpace (pyLowerChar c) = false := by
  rw [isPySpace_pyLowerChar]
  exact hex_not_space h

/-- Unfolding of `token_to_address` on a present argument. -/
theorem token_to_address_some (s0 : PyStr) :
    token_to_address (some s0) =
      (if s0 = [] then none
       else if (pyStrip s0).take 2 = strToCodes "0x" ∧ (pyStrip s0).length = 42 then
         some (pyLower (pyStrip s0))
       else if (pyStrip s0).length = 40 ∧ (pyStrip s0).all isHexChar = true then
         some (strToCodes "0x" ++ pyLower (pyStrip s0))
       else TOKEN_ADDRESSES_get (pyUpper (pyStrip s0))) := rfl

theorem resolve_bare_hex (s : PyStr) (h40 : s.length = 40)
    (hhex : s.all isHexChar = true) :
    token_to_address (some s) = some (strToCodes "0x" ++ pyLower s) := by
  have hne : s ≠ [] := by
    intro h
    rw [h] at h40
    simp at h40
  have hstrip : pyStrip s = s :=
    pyStrip_eq_self_of_all s fun c hc => hex_not_space (List.all_eq_true.mp hhex c hc)
  rw [token_to_address_some, if_neg hne, hstrip, if_neg (by omega), if_pos ⟨h40, hhex⟩]

theorem resolve_prefixed_hex (s : PyStr) (h40 : s.length = 40)
    (hhex : s.all isHexChar = true) :
    token_to_address (some (strToCodes "0x" ++ s)) = some (strToCodes "0x" ++ pyLower s) := by
  have h0x : strToCodes "0x" = [48, 120] := by decide
  have hne : strToCodes "0x" ++ s ≠ [] := by
    rw [h0x]
    simp
  have hstrip : pyStrip (strToCodes "0x" ++ s) = strToCodes "0x" ++ s := by
    refine pyStrip_eq_self_of_all _ fun c hc => ?_
    rcases List.mem_append.mp hc with hc | hc
    · rw [h0x] at hc
      simp only [List.mem_cons, List.not_mem_nil, or_false] at hc
      rcases hc with rfl | rfl
      · rfl
      · rfl
    · exact hex_not_space (List.all_eq_true.mp hhex c hc)
  rw [token_to_address_some, if_neg hne, hstrip, if_pos]
  · rw [h0x]
    show some (List.map pyLowerChar (48 :: 120 :: s)) = some (48 :: 120 :: List.map pyLowerChar s)
    simp [pyLowerChar]
  · constructor
    · rw [h0x]
      rfl
    · rw [List.length_append, h0x, h40]
      decide

/-- Any stripped input whose uppercase form equals a table key resolves via
the table: such a key is never address-shaped, so the address branches are
skipped. -/
theorem resolve_via_table (s k : PyStr) (hup : pyUpper (pyStrip s) = k)
    (h42 : k.length ≠ 42) (h40 : k.length ≠ 40) (hne : s ≠ []) :
    token_to_address (some s) = TOKEN_ADDRESSES_get k := by
  have hlen : (pyStrip s).length = k.length := by
    rw [← hup]
    exact (List.length_map _ _).symm
  rw [token_to_address_some, if_neg hne, if_neg (fun hcon => h42 (by omega)),
    if_neg (fun hcon => h40 (by omega)), hup]

/-- Every key of the symbol table is 3 or 4 characters, so a long string is
never a known symbol. -/
theorem table_get_none_of_long (k : PyStr) (h : 5 ≤ k.length) :
    TOKEN_ADDRESSES_get k = none := by
  unfold TOKEN_ADDRESSES_get
  split_ifs with h1 h2 h3 h4 h5 h6
  · subst h1
    exact absurd h (by decide)
  · subst h2
    exact absurd h (by decide)
  · subst h3
    exact absurd h (by decide)
  · subst h4
    exact absurd h (by decide)
  · subst h5
    exact absurd h (by decide)
  · subst h6
    exact absurd h (by decide)
  · rfl

/-- C6 (counterexample): a 42-character `0x`-prefixed string that is not
valid hex is *not* mapped to `None`; the hex check is skipped on the
`0x`-prefixed branch and the string is returned lowercased. -/
theorem c6_counterexample :
    token_to_address (some (strToCodes "0xZZZZZZZZZZZZZZZZZZZZZZZZZZZZZZZZZZZZZZZZ")) =
        some (strToCodes "0xzzzzzzzzzzzzzzzzzzzzzzzzzzzzzzzzzzzzzzzz") ∧
      token_to_address (some (strToCodes "0xZZZZZZZZZZZZZZZZZZZZZZZZZZZZZZZZZZZZZZZZ")) ≠
        none := by
  constructor
  · decide
  · decide

/-- C6 (amended): `token_to_address` maps every bare 40-hex-character
address, with or without `0x` prefix, and every known symbol looked up
case-insensitively, to the canonical lowercase `0x`-prefixed address (in
particular `resolve("USDC")` and the mixed-case USDC address agree); every
42-character `0x`-prefixed input (after strip) is lowercased and returned
without hex validation; and it returns `none` for every empty input, every
malformed bare (unprefixed) 40-character hex string, and every remaining
input whose uppercased stripped form is not a known symbol. -/
theorem c6_amended :
    (token_to_address (some (strToCodes "USDC")) =
        token_to_address (some (strToCodes "0xA0B86991C6218B36C1D19D4A2E9EB0CE3606EB48")) ∧
      token_to_address (some (strToCodes "USDC")) =
        some (strToCodes "0xa0b86991c6218b36c1d19d4a2e9eb0ce3606eb48")) ∧
    (∀ s : PyStr, s.length = 40 → s.all isHexChar = true →
      token_to_address (some s) = some (strToCodes "0x" ++ pyLower s) ∧
      token_to_address (some (strToCodes "0x" ++ s)) = some (strToCodes "0x" ++ pyLower s)) ∧
    (∀ k v s : PyStr, TOKEN_ADDRESSES_get k = some v → pyUpper (pyStrip s) = k →
      token_to_address (some s) = some v) ∧
    (∀ s : PyStr, s ≠ [] → (pyStrip s).take 2 = strToCodes "0x" →
      (pyStrip s).length = 42 →
      token_to_address (some s) = some (pyLower (pyStrip s))) ∧
    (∀ s : PyStr, s ≠ [] → (pyStrip s).length = 40 →
      ¬((pyStrip s).all isHexChar = true) →
      token_to_address (some s) = none) ∧
    (∀ s : PyStr, s ≠ [] →
      ¬((pyStrip s).take 2 = strToCodes "0x" ∧ (pyStrip s).length = 42) →
      ¬((pyStrip s).length = 40 ∧ (pyStrip s).all isHexChar = true) →
      TOKEN_ADDRESSES_get (pyUpper (pyStrip s)) = none →
      token_to_address (some s) = none) ∧
    token_to_address (some (strToCodes "usdc")) = token_to_address (some (strToCodes "USDC")) ∧
    token_to_address none = none ∧
    token_to_address (some []) = none ∧
    token_to_address (some (strToCodes "FOO")) = none ∧
    token_to_address (some (strToCodes "zjzjzjzjzjzjzjzjzjzjzjzjzjzjzjzjzjzjzjzj")) = none := by
  refine ⟨⟨by decide, by decide⟩, fun s h40 hhex =>
    ⟨resolve_bare_hex s h40 hhex, resolve_prefixed_hex s h40 hhex⟩,
    ?_, ?_, ?_, ?_, by decide, rfl, by decide, by decide, by decide⟩
  · intro k v s hk hup
    have hne : s ≠ [] := by
      intro h
      subst h
      have hker : k = [] := by
        rw [← hup]
        rfl
      subst hker
      rw [show TOKEN_ADDRESSES_get [] = none from by decide] at hk
      cases hk
    have hklen : k.length ≠ 42 ∧ k.length ≠ 40 := by
      unfold TOKEN_ADDRESSES_get at hk
      split_ifs at hk with h1 h2 h3 h4 h5 h6
      · subst h1
        exact ⟨by decide, by decide⟩
      · subst h2
        exact ⟨by decide, by decide⟩
      · subst h3
        exact ⟨by decide, by decide⟩
      · subst h4
        exact ⟨by decide, by decide⟩
      · subst h5
        exact ⟨by decide, by decide⟩
      · subst h6
        exact ⟨by decide, by decide⟩
    rw [resolve_via_table s k hup hklen.1 hklen.2 hne]
    exact hk
  · intro s hne ht h42
    rw [token_to_address_some, if_neg hne, if_pos ⟨ht, h42⟩]
  · intro s hne h40 hhex
    rw [token_to_address_some, if_neg hne, if_neg (fun hcon => by omega),
      if_neg (fun hcon => hhex hcon.2)]
    apply table_get_none_of_long
    have hul : (pyUpper (pyStrip s)).length = (pyStrip s).length := List.length_map _ _
    omega
  · intro s hne h1 h2 hk
    rw [token_to_address_some, if_neg hne, if_neg h1, if_neg h2, hk]

/-- Witness for `c6_amended`: the USDC address as bare lowercase hex resolves
to the canonical prefixed form. -/
theorem c6_amended_witness :
    token_to_address (some (strToCodes "a0b86991c6218b36c1d19d4a2e9eb0ce3606eb48")) =
      some (strToCodes "0xa0b86991c6218b36c1d19d4a2e9eb0ce3606eb48") :=
  ((c6_amended.2.1 (strToCodes "a0b86991c6218b36c1d19d4a2e9eb0ce3606eb48")
    (by decide) (by decide)).1).trans (by decide)

/-- C9: `token_to_address` is idempotent on its successes: any address it
returns resolves to itself. -/
theorem c9_idempotent (s a : PyStr) (h : token_to_address (some s) = some a) :
    token_to_address (some a) = some a := by
  have h0x : strToCodes "0x" = [48, 120] := by decide
  rw [token_to_address_some] at h
  by_cases h0 : s = []
  · rw [if_pos h0] at h
    cases h
  rw [if_neg h0] at h
  by_cases h1 : (pyStrip s).take 2 = strToCodes "0x" ∧ (pyStrip s).length = 42
  · rw [if_pos h1] at h
    have ha : a = pyLower (pyStrip s) := (Option.some.inj h).symm
    have hstrip : pyStrip a = a := by
      rw [ha, pyStrip_pyLower, pyStrip_idem]
    have hlen : a.length = 42 := by
      rw [ha]
      unfold pyLower
      rw [List.length_map]
      exact h1.2
    have hne : a ≠ [] := by
      intro hnil
      rw [hnil] at hlen
      simp at hlen
    have htake : a.take 2 = strToCodes "0x" := by
      rw [ha]
      unfold pyLower
      rw [← List.map_take, h1.1, h0x]
      rfl
    rw [token_to_address_some, if_neg hne, hstrip, if_pos ⟨htake, hlen⟩, ha, pyLower_idem]
  rw [if_neg h1] at h
  by_cases h2 : (pyStrip s).length = 40 ∧ (pyStrip s).all isHexChar = true
  · rw [if_pos h2] at h
    have ha : a = strToCodes "0x" ++ pyLower (pyStrip s) := (Option.some.inj h).symm
    have hstrip : pyStrip a = a := by
      rw [ha]
      refine pyStrip_eq_self_of_all _ fun c hc => ?_
      rcases List.mem_append.mp hc with hc | hc
      · rw [h0x] at hc
        simp only [List.mem_cons, List.not_mem_nil, or_false] at hc
        rcases hc with rfl | rfl
        · rfl
        · rfl
      · obtain ⟨d, hd, rfl⟩ := List.mem_map.mp hc
        exact hex_lower_not_space (List.all_eq_true.mp h2.2 d hd)
    have hne : a ≠ [] := by
      rw [ha, h0x]
      simp
    have htake : a.take 2 = strToCodes "0x" := by
      rw [ha, h0x]
      rfl
    have hlen : a.length = 42 := by
      rw [ha, List.length_append, h0x]
      unfold pyLower
      rw [List.length_map, h2.1]
      decide
    rw [token_to_address_some, if_neg hne, hstrip, if_pos ⟨htake, hlen⟩, ha, h0x]
    show some (List.map pyLowerChar (48 :: 120 :: pyLower (pyStrip s))) = _
    simp only [List.map_cons]
    rw [show pyLowerChar 48 = 48 from rfl, show pyLowerChar 120 = 120 from rfl]
    show some (48 :: 120 :: pyLower (pyLower (pyStrip s))) = _
    rw [pyLower_idem]
    rfl
  rw [if_neg h2] at h
  unfold TOKEN_ADDRESSES_get at h
  split_ifs at h <;> (try cases h) <;> decide

/-- Witness for `c9_idempotent`: the canonical USDC address is a fixed point. -/
theorem c9_idempotent_witness :
    token_to_address (some (strToCodes "0xa0b86991c6218b36c1d19d4a2e9eb0ce3606eb48")) =
      some (strToCodes "0xa0b86991c6218b36c1d19d4a2e9eb0ce3606eb48") :=
  c9_idempotent (strToCodes "USDC") _ (by decide)

/-! ## Reconciler lemmas (sorting, stability, dedup) -/

theorem mkApiItem_bps (ta tb : Option PyStr) (inc : Bool) (s : PoolSlippageData) :
    (mkApiItem ta tb inc s).bps = s.slippage_bps := rfl

/-- Inserting an element into a list only touches the filtered-by-tier slice
at its own tier, where it lands in front: the elements skipped by
`orderedInsert` all have a strictly smaller tier. -/
theorem filter_orderedInsert_key (t : Int) (a : PoolSlippageData)
    (l : List PoolSlippageData) :
    (List.orderedInsert bpsLE a l).filter (fun s => s.slippage_bps == t) =
      if a.slippage_bps = t then
        a :: l.filter (fun s => s.slippage_bps == t)
      else l.filter (fun s => s.slippage_bps == t) := by
  induction l with
  | nil =>
    show [a].filter (fun s => s.slippage_bps == t) = _
    rw [List.filter_cons]
    by_cases hat : a.slippage_bps = t
    · rw [if_pos (by simpa using hat), if_pos hat]
    · rw [if_neg (by simpa using hat), if_neg hat]
  | cons b m ih =>
    show (if bpsLE a b then a :: b :: m else b :: List.orderedInsert bpsLE a m).filter
        (fun s => s.slippage_bps == t) = _
    by_cases hab : bpsLE a b
    · rw [if_pos hab, List.filter_cons]
      by_cases hat : a.slippage_bps = t
      · rw [if_pos (by simpa using hat), if_pos hat]
      · rw [if_neg (by simpa using hat), if_neg hat]
    · rw [if_neg hab, List.filter_cons, ih]
      have hblt : b.slippage_bps < a.slippage_bps := by
        unfold bpsLE at hab
        omega
      by_cases hat : a.slippage_bps = t
      · have hbt : ¬(b.slippage_bps = t) := by omega
        rw [if_pos hat, if_pos hat, if_neg (by simpa using hbt), List.filter_cons,
          if_neg (by simpa using hbt)]
      · rw [if_neg hat, if_neg hat, List.filter_cons]

/-- Stability of the embedded sort: the sorted list filtered to one tier is
the input filtered to that tier, in input order. -/
theorem filter_key_sortedByBps (t : Int) (l : List PoolSlippageData) :
    (sortedByBps l).filter (fun s => s.slippage_bps == t) =
      l.filter (fun s => s.slippage_bps == t) := by
  induction l with
  | nil => rfl
  | cons a m ih =>
    unfold sortedByBps at ih
    show (List.orderedInsert bpsLE a (List.insertionSort bpsLE m)).filter
        (fun s => s.slippage_bps == t) = _
    rw [filter_orderedInsert_key, List.filter_cons]
    by_cases hat : a.slippage_bps = t
    · rw [if_pos hat, if_pos (by simpa using hat), ih]
    · rw [if_neg hat, if_neg (by simpa using hat), ih]

theorem find_eq_filter_head (p : α → Bool) (l : List α) :
    l.find? p = (l.filter p).head? := by
  induction l with
  | nil => rfl
  | cons a m ih =>
    rw [List.find?_cons, List.filter_cons]
    cases hpa : p a
    · simp only [Bool.false_eq_true, if_false]
      exact ih
    · simp

/-- Every item the dedup loop emits comes from the *first* element of the
remaining list carrying its tier, and its tier is fresh with respect to
`seen_bps`. -/
theorem dedupEmit_first (ta tb : Option PyStr) (inc : Bool) :
    ∀ (seen : List Int) (l : List PoolSlippageData),
      ∀ it ∈ dedupEmit ta tb inc seen l,
        ∃ p, l.find? (fun s => s.slippage_bps == it.bps) = some p ∧
          it = mkApiItem ta tb inc p ∧ it.bps ∉ seen := by
  intro seen l
  induction l generalizing seen with
  | nil => simp [dedupEmit]
  | cons s rest ih =>
    intro it hit
    rw [dedupEmit] at hit
    by_cases hs : s.slippage_bps ∈ seen
    · rw [if_pos hs] at hit
      obtain ⟨p, hfind, hmk, hfresh⟩ := ih seen it hit
      have hne : ¬(s.slippage_bps = it.bps) := fun h => hfresh (h ▸ hs)
      refine ⟨p, ?_, hmk, hfresh⟩
      rw [List.find?_cons]
      have : (s.slippage_bps == it.bps) = false := by simpa using hne
      rw [this]
      exact hfind
    · rw [if_neg hs] at hit
      rcases List.mem_cons.mp hit with hit | hit
      · refine ⟨s, ?_, hit, ?_⟩
        · rw [List.find?_cons]
          have : (s.slippage_bps == it.bps) = true := by
            rw [hit, mkApiItem_bps]
            simp
          rw [this]
        · rw [hit, mkApiItem_bps]
          exact hs
      · obtain ⟨p, hfind, hmk, hfresh⟩ := ih (s.slippage_bps :: seen) it hit
        have hne : ¬(s.slippage_bps = it.bps) := by
          intro h
          exact hfresh (h ▸ List.mem_cons_self _ _)
        refine ⟨p, ?_, hmk, fun hm => hfresh (List.mem_cons_of_mem _ hm)⟩
        rw [List.find?_cons]
        have : (s.slippage_bps == it.bps) = false := by simpa using hne
        rw [this]
        exact hfind

/-- On a tier-sorted input the dedup loop emits strictly increasing tiers. -/
theorem dedupEmit_pairwise (ta tb : Option PyStr) (inc : Bool) :
    ∀ (seen : List Int) (l : List PoolSlippageData), List.Sorted bpsLE l →
      List.Pairwise (fun x y : ApiItem => x.bps < y.bps) (dedupEmit ta tb inc seen l) := by
  intro seen l
  induction l generalizing seen with
  | nil => simp [dedupEmit]
  | cons s rest ih =>
    intro hsort
    rw [dedupEmit]
    by_cases hs : s.slippage_bps ∈ seen
    · rw [if_pos hs]
      exact ih seen hsort.of_cons
    · rw [if_neg hs]
      refine List.Pairwise.cons ?_ (ih _ hsort.of_cons)
      intro it hit
      obtain ⟨p, hfind, hmk, hfresh⟩ :=
        dedupEmit_first ta tb inc (s.slippage_bps :: seen) rest it hit
      have hp : p ∈ rest := List.mem_of_find?_eq_some hfind
      have hle : s.slippage_bps ≤ p.slippage_bps :=
        List.rel_of_sorted_cons hsort p hp
      have hbps : it.bps = p.slippage_bps := by rw [hmk, mkApiItem_bps]
      have hne : it.bps ≠ s.slippage_bps := fun h => hfresh (h ▸ List.mem_cons_self _ _)
      rw [mkApiItem_bps]
      omega

/-- A tier appears among the emitted items iff it is fresh and appears in the
remaining input. -/
theorem dedupEmit_mem_bps (ta tb : Option PyStr) (inc : Bool) :
    ∀ (seen : List Int) (l : List PoolSlippageData) (t : Int),
      (∃ it ∈ dedupEmit ta tb inc seen l, it.bps = t) ↔
        (t ∉ seen ∧ ∃ p ∈ l, p.slippage_bps = t) := by
  intro seen l
  induction l generalizing seen with
  | nil => simp [dedupEmit]
  | cons s rest ih =>
    intro t
    rw [dedupEmit]
    by_cases hs : s.slippage_bps ∈ seen
    · rw [if_pos hs, ih seen t]
      constructor
      · rintro ⟨hfresh, p, hp, hpt⟩
        exact ⟨hfresh, p, List.mem_cons_of_mem _ hp, hpt⟩
      · rintro ⟨hfresh, p, hp, hpt⟩
        rcases List.mem_cons.mp hp with rfl | hp
        · exact absurd (hpt ▸ hs) hfresh
        · exact ⟨hfresh, p, hp, hpt⟩
    · rw [if_neg hs]
      constructor
      · rintro ⟨it, hit, rfl⟩
        rcases List.mem_cons.mp hit with rfl | hit
        · rw [mkApiItem_bps]
          exact ⟨hs, s, List.mem_cons_self _ _, rfl⟩
        · obtain ⟨hfresh, p, hp, hpt⟩ := (ih (s.slippage_bps :: seen) it.bps).mp ⟨it, hit, rfl⟩
          exact ⟨fun hm => hfresh (List.mem_cons_of_mem _ hm), p,
            List.mem_cons_of_mem _ hp, hpt⟩
      · rintro ⟨hfresh, p, hp, hpt⟩
        by_cases hts : t = s.slippage_bps
        · exact ⟨mkApiItem ta tb inc s, List.mem_cons_self _ _, by rw [mkApiItem_bps, hts]⟩
        · rcases List.mem_cons.mp hp with rfl | hp
          · exact absurd hpt.symm hts
          · obtain ⟨it, hit, hbps⟩ := (ih (s.slippage_bps :: seen) t).mpr
              ⟨by simp [hfresh, fun h : t = s.slippage_bps => hts h], p, hp, hpt⟩
            exact ⟨it, List.mem_cons_of_mem _ hit, hbps⟩

/-- C2: the reconciled output is strictly ascending in basis-point tier (so
sorted, with at most one item per tier), every output item is built from the
first input occurrence of its tier (dedup-by-first under a stable sort), and
the output tiers are exactly the input tiers. -/
theorem c2_tier_dedup_sorted (data : List PoolSlippageData) (ta tb : Option PyStr)
    (inc : Bool) :
    List.Pairwise (fun x y : ApiItem => x.bps < y.bps)
        (transform_slippage_for_api data ta tb inc) ∧
    (∀ it ∈ transform_slippage_for_api data ta tb inc,
      ∃ p, data.find? (fun s => s.slippage_bps == it.bps) = some p ∧
        it = mkApiItem ta tb inc p) ∧
    (∀ t : Int, (∃ it ∈ transform_slippage_for_api data ta tb inc, it.bps = t) ↔
      ∃ p ∈ data, p.slippage_bps = t) := by
  have hsorted : List.Sorted bpsLE (sortedByBps data) :=
    List.sorted_insertionSort bpsLE data
  refine ⟨dedupEmit_pairwise ta tb inc [] (sortedByBps data) hsorted, ?_, ?_⟩
  · intro it hit
    obtain ⟨p, hfind, hmk, -⟩ := dedupEmit_first ta tb inc [] (sortedByBps data) it hit
    refine ⟨p, ?_, hmk⟩
    rw [find_eq_filter_head] at hfind ⊢
    rw [← filter_key_sortedByBps it.bps data]
    exact hfind
  · intro t
    rw [show transform_slippage_for_api data ta tb inc =
        dedupEmit ta tb inc [] (sortedByBps data) from rfl,
      dedupEmit_mem_bps]
    constructor
    · rintro ⟨-, p, hp, hpt⟩
      exact ⟨p, (List.mem_insertionSort bpsLE).mp hp, hpt⟩
    · rintro ⟨p, hp, hpt⟩
      exact ⟨List.not_mem_nil t, p, (List.mem_insertionSort bpsLE).mpr hp, hpt⟩



/-- Witness for `c2_tier_dedup_sorted`: with two tier-25 points the kept item
is built from the first one. -/
theorem c2_tier_dedup_sorted_witness :
    ∃ p, [c2wPoint1, c2wPoint2].find?
        (fun s => s.slippage_bps == (mkApiItem none none true c2wPoint1).bps) = some p ∧
      mkApiItem none none true c2wPoint1 = mkApiItem none none true p :=
  (c2_tier_dedup_sorted [c2wPoint1, c2wPoint2] none none true).2.1
    (mkApiItem none none true c2wPoint1) (by decide)


/-- C1: evaluation of the code at the spec's concrete reversed-orientation
scenario.  The pool-side token addresses are exactly the requested pair in
swapped order, yet `_is_pool_reversed` reports `false` — it compares the pool
token *symbols* against the raw request strings (here addresses) — so the
published item carries the A→B fields (price 0, max_amount 0) instead of the
B→A fields (1800.5, 50000) that the direction-correction invariant and the
spec's concrete scenario require. -/
theorem c1_reversed_orientation_divergence :
    c1Row.token_a.address = strToCodes "0xbbbbbbbbbbbbbbbbbbbbbbbbbbbbbbbbbbbbbbbb" ∧
    c1Row.token_b.address = strToCodes "0xaaaaaaaaaaaaaaaaaaaaaaaaaaaaaaaaaaaaaaaa" ∧
    is_pool_reversed c1Row.token_a.symbol c1Row.token_b.symbol
        (some (strToCodes "0xaaaaaaaaaaaaaaaaaaaaaaaaaaaaaaaaaaaaaaaa"))
        (some (strToCodes "0xbbbbbbbbbbbbbbbbbbbbbbbbbbbbbbbbbbbbbbbb")) = false ∧
    (transform_slippage_for_api [c1Row]
        (some (strToCodes "0xaaaaaaaaaaaaaaaaaaaaaaaaaaaaaaaaaaaaaaaa"))
        (some (strToCodes "0xbbbbbbbbbbbbbbbbbbbbbbbbbbbbbbbbbbbbbbbb")) true).map
        (fun it => (it.bps, it.price, it.max_amount)) = [((25 : Int), (0 : ℚ), (0 : ℚ))] ∧
    (0 : ℚ) ≠ mkRat 3601 2 ∧
    (0 : ℚ) ≠ mkRat 50000 1 := by
  refine ⟨by decide, by decide, by decide, by decide, by decide, by decide⟩

/-! ## Mempool merge lemmas -/

theorem hashKey_ne_nil {r : RawTrade} {h : PyStr} (hk : hashKey r = some h) : h ≠ [] := by
  unfold hashKey at hk
  cases hr : r.tx_hash with
  | none => simp [hr] at hk
  | some s =>
    simp only [hr] at hk
    by_cases hs : s = []
    · simp [hs] at hk
    · rw [if_neg hs] at hk
      rw [← Option.some.inj hk]
      exact hs

theorem dedupByHash_cons_some {r : RawTrade} {g : PyStr} (hk : hashKey r = some g)
    (seen : List PyStr) (rest : List RawTrade) :
    dedupByHash seen (r :: rest) =
      if g ∈ seen then dedupByHash seen rest else r :: dedupByHash (g :: seen) rest := by
  rw [dedupByHash, hk]

theorem dedupByHash_cons_none {r : RawTrade} (hk : hashKey r = none)
    (seen : List PyStr) (rest : List RawTrade) :
    dedupByHash seen (r :: rest) = r :: dedupByHash seen rest := by
  rw [dedupByHash, hk]

theorem dedupByHash_sublist (seen : List PyStr) (L : List RawTrade) :
    (dedupByHash seen L).Sublist L := by
  induction L generalizing seen with
  | nil => simp [dedupByHash]
  | cons r rest ih =>
    cases hk : hashKey r with
    | some g =>
      rw [dedupByHash_cons_some hk]
      by_cases hg : g ∈ seen
      · rw [if_pos hg]
        exact (ih seen).cons r
      · rw [if_neg hg]
        exact (ih (g :: seen)).cons₂ r
    | none =>
      rw [dedupByHash_cons_none hk]
      exact (ih seen).cons₂ r

/-- Once a hash is recorded as seen, no row carrying it survives the loop. -/
theorem dedupByHash_filter_seen (h : PyStr) :
    ∀ (seen : List PyStr) (L : List RawTrade), h ∈ seen →
      (dedupByHash seen L).filter (fun r => decide (hashKey r = some h)) = [] := by
  intro seen L
  induction L generalizing seen with
  | nil => intro _; rfl
  | cons r rest ih =>
    intro hs
    cases hk : hashKey r with
    | some g =>
      rw [dedupByHash_cons_some hk]
      by_cases hg : g ∈ seen
      · rw [if_pos hg]
        exact ih seen hs
      · rw [if_neg hg, List.filter_cons, if_neg]
        · exact ih (g :: seen) (List.mem_cons_of_mem _ hs)
        · simp only [decide_eq_true_eq, hk]
          intro hgh
          exact hg ((Option.some.inj hgh) ▸ hs)
    | none =>
      rw [dedupByHash_cons_none hk, List.filter_cons, if_neg]
      · exact ih seen hs
      · simp [hk]

/-- First-occurrence-wins: for a fresh hash, the merged list keeps exactly
the first row carrying it. -/
theorem dedupByHash_filter_some (h : PyStr) :
    ∀ (seen : List PyStr) (L : List RawTrade), h ∉ seen →
      (dedupByHash seen L).filter (fun r => decide (hashKey r = some h)) =
        (L.filter (fun r => decide (hashKey r = some h))).take 1 := by
  intro seen L
  induction L generalizing seen with
  | nil => intro _; rfl
  | cons r rest ih =>
    intro hs
    cases hk : hashKey r with
    | some g =>
      rw [dedupByHash_cons_some hk]
      by_cases hg : g ∈ seen
      · have hgh : ¬(g = h) := fun he => hs (he ▸ hg)
        rw [if_pos hg, List.filter_cons, if_neg (by simp [hk, hgh]), ih seen hs]
      · rw [if_neg hg]
        by_cases hgh : g = h
        · subst hgh
          rw [List.filter_cons, if_pos (by simp [hk]), List.filter_cons,
            if_pos (by simp [hk])]
          rw [dedupByHash_filter_seen g (g :: seen) rest (List.mem_cons_self _ _)]
          rfl
        · rw [List.filter_cons, if_neg (by simp [hk, hgh]), List.filter_cons,
            if_neg (by simp [hk, hgh])]
          refine ih (g :: seen) ?_
          simp only [List.mem_cons, not_or]
          exact ⟨fun he => hgh he.symm, hs⟩
    | none =>
      rw [dedupByHash_cons_none hk, List.filter_cons, if_neg (by simp [hk]),
        List.filter_cons, if_neg (by simp [hk])]
      exact ih seen hs

/-- Rows without a transaction hash are never deduplicated: the merged list
keeps all of them. -/
theorem dedupByHash_filter_none :
    ∀ (seen : List PyStr) (L : List RawTrade),
      (dedupByHash seen L).filter (fun r => decide (hashKey r = none)) =
        L.filter (fun r => decide (hashKey r = none)) := by
  intro seen L
  induction L generalizing seen with
  | nil => rfl
  | cons r rest ih =>
    cases hk : hashKey r with
    | some g =>
      rw [dedupByHash_cons_some hk]
      by_cases hg : g ∈ seen
      · rw [if_pos hg, List.filter_cons, if_neg (by simp [hk])]
        exact ih seen
      · rw [if_neg hg, List.filter_cons, if_neg (by simp [hk]), List.filter_cons,
          if_neg (by simp [hk])]
        exact ih (g :: seen)
    | none =>
      rw [dedupByHash_cons_none hk, List.filter_cons, if_pos (by simp [hk]),
        List.filter_cons, if_pos (by simp [hk]), ih seen]

/-- When all present hashes are distinct and unseen, nothing is dropped. -/
theorem dedupByHash_no_skips :
    ∀ (seen : List PyStr) (L : List RawTrade),
      (∀ r ∈ L, ∀ h, hashKey r = some h → h ∉ seen) →
      (L.filterMap hashKey).Nodup →
      dedupByHash seen L = L := by
  intro seen L
  induction L generalizing seen with
  | nil => intro _ _; rfl
  | cons r rest ih =>
    intro hfresh hnodup
    cases hk : hashKey r with
    | some g =>
      have hg : g ∉ seen := hfresh r (List.mem_cons_self _ _) g hk
      rw [dedupByHash_cons_some hk, if_neg hg]
      congr 1
      have hnodup' : (rest.filterMap hashKey).Nodup := by
        rw [List.filterMap_cons, hk] at hnodup
        exact hnodup.of_cons
      have hgrest : g ∉ rest.filterMap hashKey := by
        rw [List.filterMap_cons, hk] at hnodup
        exact (List.nodup_cons.mp hnodup).1
      refine ih (g :: seen) (fun s hsm h hsk => ?_) hnodup'
      intro hmem
      rcases List.mem_cons.mp hmem with rfl | hmem
      · exact hgrest (List.mem_filterMap.mpr ⟨s, hsm, hsk⟩)
      · exact hfresh s (List.mem_cons_of_mem _ hsm) h hsk hmem
    | none =>
      rw [dedupByHash_cons_none hk]
      congr 1
      have hnodup' : (rest.filterMap hashKey).Nodup := by
        rw [List.filterMap_cons, hk] at hnodup
        exact hnodup
      exact ih seen (fun s hsm h hsk => hfresh s (List.mem_cons_of_mem _ hsm) h hsk) hnodup'

theorem transform_mempool_row_tx_hash (now : Int) (r : RawTrade) :
    (transform_mempool_row now r).tx_hash = safe_str r.tx_hash := rfl

theorem safe_str_eq_iff_hashKey {r : RawTrade} {h : PyStr} (hne : h ≠ []) :
    safe_str r.tx_hash = h ↔ hashKey r = some h := by
  unfold safe_str hashKey
  cases hr : r.tx_hash with
  | none =>
    simp only [Option.getD_none]
    constructor
    · intro he
      exact absurd he.symm hne
    · intro he
      cases he
  | some s =>
    simp only [Option.getD_some]
    by_cases hs : s = []
    · subst hs
      rw [if_pos rfl]
      constructor
      · intro he
        exact absurd he.symm hne
      · intro he
        cases he
    · rw [if_neg hs]
      constructor
      · intro he
        rw [he]
      · intro he
        exact Option.some.inj he

/-- Filtering published trades by a nonempty hash is filtering raw rows by
the corresponding dedup key. -/
theorem trades_filter_hash (now : Int) {h : PyStr} (hne : h ≠ []) (l : List RawTrade) :
    (transform_mempool_trades now l).filter (fun t => decide (t.tx_hash = h)) =
      (l.filter (fun r => decide (hashKey r = some h))).map (transform_mempool_row now) := by
  unfold transform_mempool_trades
  rw [List.filter_map]
  congr 1
  refine List.filter_congr fun r _ => ?_
  show decide ((transform_mempool_row now r).tx_hash = h) = decide (hashKey r = some h)
  rw [transform_mempool_row_tx_hash, decide_eq_decide]
  exact safe_str_eq_iff_hashKey hne

theorem length_transform_mempool (now : Int) (l : List RawTrade) :
    (transform_mempool_trades now l).length = l.length := List.length_map l _


theorem fetch_mempool_trades_eq (q : PyStr → PyStr → Nat → List RawTrade) (now : Int)
    (limit : Nat) (a b : PyStr) (ha : a ≠ []) (hb : b ≠ []) :
    fetch_mempool_trades q now limit (some a) (some b) =
      (transform_mempool_trades now
        ((dedupByHash []
          ((mempool_batches q limit a b).1 ++ (mempool_batches q limit a b).2)).take limit),
       [(normalize_token_address a, normalize_token_address b, max (limit / 2) 5),
        (normalize_token_address b, normalize_token_address a, max (limit / 2) 5)]) := by
  have hc : (!truthyOptStr (some a) || !truthyOptStr (some b)) = false := by
    simp [truthyOptStr, List.isEmpty_iff, ha, hb]
  unfold fetch_mempool_trades mempool_batches
  rw [hc]
  rfl

/-- C3: with both addresses resolved, the mempool fetch queries both
orientations with per-query limit `max(limit/2, 5)`; at most one published
trade carries any given (nonempty) transaction hash; for each hash the kept
row is the first occurrence in the `(A,B)`-then-`(B,A)` concatenation;
hashless rows are never deduplicated; the output is the merged list truncated
to `limit` after dedup; a hash present in both batches yields exactly one
trade (when `limit` does not cut it off); and batches with pairwise-distinct
hashes yield `len(AB) + len(BA)` trades capped at `limit`. -/
theorem c3_mempool_merge (q : PyStr → PyStr → Nat → List RawTrade) (now : Int)
    (limit : Nat) (a b : PyStr) (ha : a ≠ []) (hb : b ≠ []) :
    (fetch_mempool_trades q now limit (some a) (some b)).2 =
      [(normalize_token_address a, normalize_token_address b, max (limit / 2) 5),
       (normalize_token_address b, normalize_token_address a, max (limit / 2) 5)] ∧
    (∀ h : PyStr, h ≠ [] →
      ((fetch_mempool_trades q now limit (some a) (some b)).1.filter
        (fun t => decide (t.tx_hash = h))).length ≤ 1) ∧
    (∀ h : PyStr,
      (dedupByHash []
          ((mempool_batches q limit a b).1 ++ (mempool_batches q limit a b).2)).filter
          (fun r => decide (hashKey r = some h)) =
        (((mempool_batches q limit a b).1 ++ (mempool_batches q limit a b).2).filter
          (fun r => decide (hashKey r = some h))).take 1) ∧
    ((dedupByHash []
        ((mempool_batches q limit a b).1 ++ (mempool_batches q limit a b).2)).filter
        (fun r => decide (hashKey r = none)) =
      ((mempool_batches q limit a b).1 ++ (mempool_batches q limit a b).2).filter
        (fun r => decide (hashKey r = none))) ∧
    (fetch_mempool_trades q now limit (some a) (some b)).1.length =
      min limit
        (dedupByHash []
          ((mempool_batches q limit a b).1 ++ (mempool_batches q limit a b).2)).length ∧
    (∀ h : PyStr,
      (∃ r ∈ (mempool_batches q limit a b).1, hashKey r = some h) →
      (∃ r ∈ (mempool_batches q limit a b).2, hashKey r = some h) →
      ((mempool_batches q limit a b).1 ++ (mempool_batches q limit a b).2).length ≤ limit →
      ((fetch_mempool_trades q now limit (some a) (some b)).1.filter
        (fun t => decide (t.tx_hash = h))).length = 1) ∧
    ((((mempool_batches q limit a b).1 ++
        (mempool_batches q limit a b).2).filterMap hashKey).Nodup →
      (fetch_mempool_trades q now limit (some a) (some b)).1.length =
        min limit
          ((mempool_batches q limit a b).1.length + (mempool_batches q limit a b).2.length)) := by
  rw [fetch_mempool_trades_eq q now limit a b ha hb]
  refine ⟨rfl, ?_, ?_, dedupByHash_filter_none _ _, ?_, ?_, ?_⟩
  · intro h hne
    rw [trades_filter_hash now hne, List.length_map]
    refine Nat.le_trans
      (((List.take_sublist limit _).filter
        (fun r => decide (hashKey r = some h))).length_le) ?_
    rw [dedupByHash_filter_some h [] _ (List.not_mem_nil h), List.length_take]
    omega
  · intro h
    exact dedupByHash_filter_some h [] _ (List.not_mem_nil h)
  · show (transform_mempool_trades now _).length = _
    rw [length_transform_mempool, List.length_take]
  · intro h hab _ hlim
    obtain ⟨r, hr, hkr⟩ := hab
    have hne : h ≠ [] := hashKey_ne_nil hkr
    rw [trades_filter_hash now hne, List.length_map]
    have hdlen : (dedupByHash []
        ((mempool_batches q limit a b).1 ++ (mempool_batches q limit a b).2)).length ≤ limit :=
      Nat.le_trans (dedupByHash_sublist _ _).length_le hlim
    rw [List.take_of_length_le hdlen,
      dedupByHash_filter_some h [] _ (List.not_mem_nil h), List.length_take]
    have hmem : r ∈ (((mempool_batches q limit a b).1 ++
        (mempool_batches q limit a b).2).filter (fun r => decide (hashKey r = some h))) :=
      List.mem_filter.mpr ⟨List.mem_append_left _ hr, by simp [hkr]⟩
    have := List.length_pos_of_mem hmem
    omega
  · intro hnodup
    rw [dedupByHash_no_skips [] _ (fun r _ h _ => List.not_mem_nil h) hnodup]
    show (transform_mempool_trades now _).length = _
    rw [length_transform_mempool, List.length_take, List.length_append]



/-- Witness for `c3_mempool_merge`: a transaction hash present in both
batches is published exactly once. -/
theorem c3_mempool_merge_witness :
    ((fetch_mempool_trades c3wProvider 0 20
        (some (strToCodes "0xab")) (some (strToCodes "0xcd"))).1.filter
      (fun t => decide (t.tx_hash = strToCodes "0xabc"))).length = 1 :=
  (c3_mempool_merge c3wProvider 0 20 (strToCodes "0xab") (strToCodes "0xcd")
      (by decide) (by decide)).2.2.2.2.2.1
    (strToCodes "0xabc") (by decide) (by decide) (by decide)


/-- C7 (counterexample): the merged mempool list is *not* descending by block
time across the whole list — the `(A,B)` rows are concatenated before the
`(B,A)` rows with no global re-sort, so a later-timed `(B,A)` trade follows
an earlier-timed `(A,B)` trade. -/
theorem c7_counterexample :
    ((fetch_mempool_trades c7Provider 0 20
        (some (strToCodes "0xab")) (some (strToCodes "0xcd"))).1.map
      (fun t => t.block_time)) = [(1 : Int), 5] ∧
    ¬ List.Pairwise (fun s t : MempoolTradeData => t.block_time ≤ s.block_time)
      (fetch_mempool_trades c7Provider 0 20
        (some (strToCodes "0xab")) (some (strToCodes "0xcd"))).1 := by
  constructor
  · decide
  · decide

theorem transform_mempool_row_block_time (now : Int) (r : RawTrade) :
    (transform_mempool_row now r).block_time = r.block_time.getD now := rfl

/-- C7 (amended): the merged list keeps each batch's rows in provider order,
with all `(A,B)` rows before all `(B,A)` rows; when each directional batch is
itself descending by block time the output splits into two contiguous
descending segments, but the whole list need not be descending. -/
theorem c7_amended (q : PyStr → PyStr → Nat → List RawTrade) (now : Int)
    (limit : Nat) (a b : PyStr) (ha : a ≠ []) (hb : b ≠ [])
    (hab : List.Pairwise
      (fun r s : RawTrade => s.block_time.getD now ≤ r.block_time.getD now)
      (mempool_batches q limit a b).1)
    (hba : List.Pairwise
      (fun r s : RawTrade => s.block_time.getD now ≤ r.block_time.getD now)
      (mempool_batches q limit a b).2) :
    ∃ l1 l2 : List MempoolTradeData,
      (fetch_mempool_trades q now limit (some a) (some b)).1 = l1 ++ l2 ∧
      (∀ t ∈ l1, ∃ r ∈ (mempool_batches q limit a b).1, t = transform_mempool_row now r) ∧
      (∀ t ∈ l2, ∃ r ∈ (mempool_batches q limit a b).2, t = transform_mempool_row now r) ∧
      List.Pairwise (fun s t : MempoolTradeData => t.block_time ≤ s.block_time) l1 ∧
      List.Pairwise (fun s t : MempoolTradeData => t.block_time ≤ s.block_time) l2 := by
  rw [fetch_mempool_trades_eq q now limit a b ha hb]
  obtain ⟨d1, d2, hd, h1, h2⟩ :=
    List.sublist_append_iff.mp
      (dedupByHash_sublist [] ((mempool_batches q limit a b).1 ++ (mempool_batches q limit a b).2))
  refine ⟨transform_mempool_trades now (d1.take limit),
    transform_mempool_trades now (d2.take (limit - d1.length)), ?_, ?_, ?_, ?_, ?_⟩
  · show transform_mempool_trades now _ = _
    rw [hd, List.take_append_eq_append_take]
    exact List.map_append _ _ _
  · intro t ht
    obtain ⟨r, hr, rfl⟩ := List.mem_map.mp ht
    exact ⟨r, h1.subset ((List.take_sublist _ _).subset hr), rfl⟩
  · intro t ht
    obtain ⟨r, hr, rfl⟩ := List.mem_map.mp ht
    exact ⟨r, h2.subset ((List.take_sublist _ _).subset hr), rfl⟩
  · refine List.Pairwise.map _ ?_
      (List.Pairwise.sublist ((List.take_sublist _ _).trans h1) hab)
    intro r s hrs
    rw [transform_mempool_row_block_time, transform_mempool_row_block_time]
    exact hrs
  · refine List.Pairwise.map _ ?_
      (List.Pairwise.sublist ((List.take_sublist _ _).trans h2) hba)
    intro r s hrs
    rw [transform_mempool_row_block_time, transform_mempool_row_block_time]
    exact hrs

/-- Witness for `c7_amended`: with descending singleton batches the output is
a concatenation of two descending segments. -/
theorem c7_amended_witness :
    ∃ l1 l2 : List MempoolTradeData,
      (fetch_mempool_trades c7Provider 0 20
        (some (strToCodes "0xab")) (some (strToCodes "0xcd"))).1 = l1 ++ l2 ∧
      (∀ t ∈ l1, ∃ r ∈ (mempool_batches c7Provider 20 (strToCodes "0xab")
        (strToCodes "0xcd")).1, t = transform_mempool_row 0 r) ∧
      (∀ t ∈ l2, ∃ r ∈ (mempool_batches c7Provider 20 (strToCodes "0xab")
        (strToCodes "0xcd")).2, t = transform_mempool_row 0 r) ∧
      List.Pairwise (fun s t : MempoolTradeData => t.block_time ≤ s.block_time) l1 ∧
      List.Pairwise (fun s t : MempoolTradeData => t.block_time ≤ s.block_time) l2 :=
  c7_amended c7Provider 0 20 (strToCodes "0xab") (strToCodes "0xcd")
    (by decide) (by decide) (by decide) (by decide)

/-- C8: every parsed mempool row publishes `success = true`, even when the
provider explicitly reported `Success = false` (the `Success or True`
pattern). -/
theorem c8_success_always_true (now : Int) (rows : List RawTrade) :
    (∀ t ∈ transform_mempool_trades now rows, t.success = true) ∧
    (transform_mempool_trades 0
      [{ emptyRawTrade with trade_success := some false }]).map (fun t => t.success) =
        [true] := by
  constructor
  · intro t ht
    obtain ⟨r, -, rfl⟩ := List.mem_map.mp ht
    show ((r.trade_success.getD true) || true) = true
    exact Bool.or_true _
  · decide

/-- Witness for `c8_success_always_true`: a row with explicit
`Success = false` still publishes `success = true`. -/
theorem c8_success_always_true_witness :
    (transform_mempool_row 0 { emptyRawTrade with trade_success := some false }).success =
      true :=
  (c8_success_always_true 0 [{ emptyRawTrade with trade_success := some false }]).1
    (transform_mempool_row 0 { emptyRawTrade with trade_success := some false })
    (by decide)

/-! ## Slippage fetch policy lemmas -/

theorem fetch_slip_eq_first (q : PyStr → PyStr → Nat → List RawSlip) (now : Int)
    (limit : Nat) (a b : PyStr) (ha : a ≠ []) (hb : b ≠ [])
    (hne : q (normalize_token_address a) (normalize_token_address b) limit ≠ []) :
    fetch_dex_pool_slippages q now limit (some a) (some b) =
      (transform_slippage_data now
        ((q (normalize_token_address a) (normalize_token_address b) limit).take limit),
       [(normalize_token_address a, normalize_token_address b, limit)]) := by
  have hc : (!truthyOptStr (some a) || !truthyOptStr (some b)) = false := by
    simp [truthyOptStr, List.isEmpty_iff, ha, hb]
  unfold fetch_dex_pool_slippages
  rw [hc]
  simp only [Bool.false_eq_true, if_false]
  split
  · rfl
  · next hcontra => exact absurd hne hcontra

theorem fetch_slip_eq_swapped (q : PyStr → PyStr → Nat → List RawSlip) (now : Int)
    (limit : Nat) (a b : PyStr) (ha : a ≠ []) (hb : b ≠ [])
    (heq : q (normalize_token_address a) (normalize_token_address b) limit = []) :
    fetch_dex_pool_slippages q now limit (some a) (some b) =
      (transform_slippage_data now
        ((q (normalize_token_address b) (normalize_token_address a) limit).take limit),
       [(normalize_token_address a, normalize_token_address b, limit),
        (normalize_token_address b, normalize_token_address a, limit)]) := by
  have hc : (!truthyOptStr (some a) || !truthyOptStr (some b)) = false := by
    simp [truthyOptStr, List.isEmpty_iff, ha, hb]
  unfold fetch_dex_pool_slippages
  rw [hc]
  simp only [Bool.false_eq_true, if_false]
  split
  · next hcontra => exact absurd heq hcontra
  · rfl

/-- C4: the slippage fetch returns an empty result with *no* provider call
when either token address is missing or empty; with both resolved it queries
the `(A,B)` orientation first, and issues the swapped `(B,A)` query exactly
when the first orientation returned zero rows — never when the first already
has data. -/
theorem c4_slippage_fetch_policy (q : PyStr → PyStr → Nat → List RawSlip) (now : Int)
    (limit : Nat) :
    (∀ ta tb : Option PyStr, truthyOptStr ta = false ∨ truthyOptStr tb = false →
      fetch_dex_pool_slippages q now limit ta tb = ([], [])) ∧
    (∀ a b : PyStr, a ≠ [] → b ≠ [] →
      q (normalize_token_address a) (normalize_token_address b) limit ≠ [] →
      (fetch_dex_pool_slippages q now limit (some a) (some b)).2 =
        [(normalize_token_address a, normalize_token_address b, limit)]) ∧
    (∀ a b : PyStr, a ≠ [] → b ≠ [] →
      q (normalize_token_address a) (normalize_token_address b) limit = [] →
      (fetch_dex_pool_slippages q now limit (some a) (some b)).2 =
        [(normalize_token_address a, normalize_token_address b, limit),
         (normalize_token_address b, normalize_token_address a, limit)] ∧
      (fetch_dex_pool_slippages q now limit (some a) (some b)).1 =
        transform_slippage_data now
          ((q (normalize_token_address b) (normalize_token_address a) limit).take limit)) := by
  refine ⟨?_, ?_, ?_⟩
  · intro ta tb h
    unfold fetch_dex_pool_slippages
    rcases h with h | h <;> simp [h]
  · intro a b ha hb hne
    rw [fetch_slip_eq_first q now limit a b ha hb hne]
  · intro a b ha hb heq
    rw [fetch_slip_eq_swapped q now limit a b ha hb heq]
    exact ⟨rfl, rfl⟩



/-- Witness for `c4_slippage_fetch_policy`: with zero `(A,B)` rows the call
log shows both orientations, `(A,B)` first. -/
theorem c4_slippage_fetch_policy_witness :
    (fetch_dex_pool_slippages c4Provider 0 50
        (some (strToCodes "0xab")) (some (strToCodes "0xcd"))).2 =
      [(normalize_token_address (strToCodes "0xab"),
        normalize_token_address (strToCodes "0xcd"), 50),
       (normalize_token_address (strToCodes "0xcd"),
        normalize_token_address (strToCodes "0xab"), 50)] :=
  ((c4_slippage_fetch_policy c4Provider 0 50).2.2 (strToCodes "0xab") (strToCodes "0xcd")
    (by decide) (by decide) (by decide)).1

/-! ## Refresh loop under a failing provider -/

/-- Under a provider that raises on every call, each refresh cycle leaves the
stored data and timestamps untouched and adds exactly two error-callback
invocations (one from `fetch_slippage_data`'s handler, one from the loop's). -/
theorem run_cycles_failing (now : Int) :
    ∀ (n : Nat) (st : ServiceState), st.running = true →
      run_cycles (.error ()) (.error ()) now true n st =
        { st with error_calls := st.error_calls + 2 * n } := by
  intro n
  induction n with
  | zero =>
    intro st _
    rfl
  | succ n ih =>
    intro st h
    rw [run_cycles, if_pos h]
    have hb : refresh_cycle (.error ()) (.error ()) now true st =
        { st with error_calls := st.error_calls + 2 } := rfl
    rw [hb, ih { st with error_calls := st.error_calls + 2 } h]
    show ({ st with error_calls := st.error_calls + 2 + 2 * n } : ServiceState) = _
    rw [show st.error_calls + 2 + 2 * n = st.error_calls + 2 * (n + 1) by omega]

/-- C5: with an always-failing provider, after any number of refresh cycles
the stored slippage and mempool data and their timestamps are unchanged, the
loop is still running, and the error callback (when set) has been invoked
twice per cycle — in particular at least twice after two cycles. -/
theorem c5_failing_refresh_noop (n : Nat) (st : ServiceState) (now : Int)
    (h : st.running = true) :
    (run_cycles (.error ()) (.error ()) now true n st).slippage_data = st.slippage_data ∧
    (run_cycles (.error ()) (.error ()) now true n st).mempool_data = st.mempool_data ∧
    (run_cycles (.error ()) (.error ()) now true n st).last_slippage_update =
      st.last_slippage_update ∧
    (run_cycles (.error ()) (.error ()) now true n st).last_mempool_update =
      st.last_mempool_update ∧
    (run_cycles (.error ()) (.error ()) now true n st).running = true ∧
    (run_cycles (.error ()) (.error ()) now true n st).error_calls =
      st.error_calls + 2 * n ∧
    (2 ≤ n → st.error_calls + 2 ≤
      (run_cycles (.error ()) (.error ()) now true n st).error_calls) := by
  rw [run_cycles_failing now n st h]
  refine ⟨rfl, rfl, rfl, rfl, h, rfl, fun hn => ?_⟩
  show st.error_calls + 2 ≤ st.error_calls + 2 * n
  omega

/-- Witness for `c5_failing_refresh_noop`: two failed cycles on a freshly
started service leave the initial empty data unchanged and fire the error
callback four times. -/
theorem c5_failing_refresh_noop_witness :
    (run_cycles (.error ()) (.error ()) 0 true 2 ServiceState.init.start).slippage_data =
      ServiceState.init.start.slippage_data ∧
    (run_cycles (.error ()) (.error ()) 0 true 2 ServiceState.init.start).mempool_data =
      ServiceState.init.start.mempool_data ∧
    (run_cycles (.error ()) (.error ()) 0 true 2 ServiceState.init.start).last_slippage_update =
      ServiceState.init.start.last_slippage_update ∧
    (run_cycles (.error ()) (.error ()) 0 true 2 ServiceState.init.start).last_mempool_update =
      ServiceState.init.start.last_mempool_update ∧
    (run_cycles (.error ()) (.error ()) 0 true 2 ServiceState.init.start).running = true ∧
    (run_cycles (.error ()) (.error ()) 0 true 2 ServiceState.init.start).error_calls =
      ServiceState.init.start.error_calls + 2 * 2 ∧
    (2 ≤ 2 → ServiceState.init.start.error_calls + 2 ≤
      (run_cycles (.error ()) (.error ()) 0 true 2 ServiceState.init.start).error_calls) :=
  c5_failing_refresh_noop 2 ServiceState.init.start 0 (by decide)

/-! ## Latest block -/

theorem foldl_max_mem : ∀ (l : List Int) (x : Int), l.foldl max x ∈ x :: l := by
  intro l
  induction l with
  | nil =>
    intro x
    simp [List.foldl]
  | cons y t ih =>
    intro x
    rw [List.foldl_cons]
    rcases List.mem_cons.mp (ih (max x y)) with hm | hm
    · rw [hm]
      rcases max_choice x y with hc | hc
      · rw [hc]
        exact List.mem_cons_self _ _
      · rw [hc]
        exact List.mem_cons_of_mem _ (List.mem_cons_self _ _)
    · exact List.mem_cons_of_mem _ (List.mem_cons_of_mem _ hm)

theorem foldl_max_le_init : ∀ (l : List Int) (x : Int), x ≤ l.foldl max x := by
  intro l
  induction l with
  | nil =>
    intro x
    exact le_refl x
  | cons y t ih =>
    intro x
    rw [List.foldl_cons]
    exact le_trans (le_max_left x y) (ih (max x y))

theorem foldl_max_le_mem : ∀ (l : List Int) (x : Int), ∀ y ∈ l, y ≤ l.foldl max x := by
  intro l
  induction l with
  | nil =>
    intro x y hy
    cases hy
  | cons z t ih =>
    intro x y hy
    rw [List.foldl_cons]
    rcases List.mem_cons.mp hy with rfl | hy
    · exact le_trans (le_max_right x y) (foldl_max_le_init t (max x y))
    · exact ih (max x z) y hy

/-- C10: `get_latest_block` is `none` exactly when the stored slippage list
is empty, otherwise the maximum slippage block number; the stored mempool
trades never contribute, so the API's `latest_block` field is `none` whenever
slippage data is absent even if mempool data is present. -/
theorem c10_latest_block (st : ServiceState) :
    (get_latest_block st = none ↔ st.slippage_data = []) ∧
    (st.slippage_data ≠ [] → ∃ m : Int, get_latest_block st = some m ∧
      m ∈ st.slippage_data.map (fun s => s.block_number) ∧
      ∀ p ∈ st.slippage_data, p.block_number ≤ m) ∧
    (∀ mem : List MempoolTradeData,
      get_latest_block { st with mempool_data := mem } = get_latest_block st) ∧
    (st.slippage_data = [] → ∀ mem : List MempoolTradeData,
      api_latest_block { st with mempool_data := mem } = none) := by
  refine ⟨?_, ?_, ?_, ?_⟩
  · unfold get_latest_block
    cases hs : st.slippage_data with
    | nil => simp
    | cons s rest => simp
  · intro hne
    unfold get_latest_block
    cases hs : st.slippage_data with
    | nil => exact absurd hs hne
    | cons s rest =>
      refine ⟨(rest.map (fun p => p.block_number)).foldl max s.block_number, rfl, ?_, ?_⟩
      · rw [List.map_cons]
        exact foldl_max_mem (rest.map (fun p => p.block_number)) s.block_number
      · intro p hp
        rcases List.mem_cons.mp hp with rfl | hp
        · exact foldl_max_le_init _ _
        · exact foldl_max_le_mem _ _ p.block_number (List.mem_map_of_mem _ hp)
  · intro mem
    rfl
  · intro hs mem
    unfold api_latest_block get_latest_block
    simp only
    rw [show ({ st with mempool_data := mem } : ServiceState).slippage_data =
      st.slippage_data from rfl, hs]


/-- Witness for `c10_latest_block`: with one stored point the latest block is
its block number. -/
theorem c10_latest_block_witness :
    ∃ m : Int, get_latest_block c10wState = some m ∧
      m ∈ c10wState.slippage_data.map (fun s => s.block_number) ∧
      ∀ p ∈ c10wState.slippage_data, p.block_number ≤ m :=
  (c10_latest_block c10wState).2.1 (by simp [c10wState])
